import Mathlib

/-!
Verification development for the orchestration kernel of the secured
hedge-fund pipeline (source files: src/main.py and src/utils/analysts.py).

The Python source is shallowly embedded:
pure functions become Lean functions, the async securing phase is modelled
by its result together with an explicit event trace, exceptions become
Except/Option values, and the langgraph StateGraph is modelled as an
explicit record of nodes, edges and entry point whose add-node / add-edge /
invoke behaviour follows the library semantics the source relies on.
-/

/-- JSON values, the shape of what Python's json.loads returns.  Numbers are
restricted to integers: no payload in the verified claims uses a float, and
floating point is outside the embedding. -/
inductive JsonVal where
  | null
  | bool (b : Bool)
  | num (n : Int)
  | str (s : String)
  | arr (elems : List JsonVal)
  | obj (members : List (String × JsonVal))
deriving Inhabited

/-- Drop leading JSON whitespace. -/
def skipWs : List Char → List Char
  | [] => []
  | c :: cs => if c = ' ' ∨ c = '\t' ∨ c = '\n' ∨ c = '\r' then skipWs cs else c :: cs

/-- Translate a JSON escape character (no \u support; unused by the claims). -/
def escChar (c : Char) : Option Char :=
  if c = 'n' then some '\n'
  else if c = 't' then some '\t'
  else if c = 'r' then some '\r'
  else if c = 'b' then some (Char.ofNat 8)
  else if c = 'f' then some (Char.ofNat 12)
  else if c = '"' ∨ c = '\\' ∨ c = '/' then some c
  else none

/-- Parse the body of a JSON string after the opening quote; returns the
string's characters and the rest of the input after the closing quote. -/
def parseStringBody : List Char → Option (List Char × List Char)
  | [] => none
  | '"' :: cs => some ([], cs)
  | '\\' :: c :: cs =>
    match escChar c, parseStringBody cs with
    | some e, some (s, rest) => some (e :: s, rest)
    | _, _ => none
  | c :: cs =>
    match parseStringBody cs with
    | some (s, rest) => some (c :: s, rest)
    | none => none

/-- Numeric value of a decimal digit character. -/
def digitVal (c : Char) : Nat := c.toNat - '0'.toNat

/-- Accumulate decimal digits into a natural number. -/
def digitsToNat (acc : Nat) : List Char → Nat
  | [] => acc
  | c :: cs => digitsToNat (acc * 10 + digitVal c) cs

/-- Split off a maximal run of leading decimal digits. -/
def takeDigits : List Char → List Char × List Char
  | [] => ([], [])
  | c :: cs =>
    if c.isDigit then
      let p := takeDigits cs
      (c :: p.1, p.2)
    else ([], c :: cs)

/-- Parse a JSON integer (optionally negative).  Fractions and exponents are
rejected: floating point is outside the embedding and unused by the claims. -/
def parseNumber (cs : List Char) : Option (JsonVal × List Char) :=
  let sp :=
    match cs with
    | '-' :: rest => (true, rest)
    | _ => (false, cs)
  let dp := takeDigits sp.2
  if dp.1.isEmpty then none
  else
    match dp.2 with
    | '.' :: _ => none
    | 'e' :: _ => none
    | 'E' :: _ => none
    | _ =>
      let n : Int := Int.ofNat (digitsToNat 0 dp.1)
      some (JsonVal.num (if sp.1 then -n else n), dp.2)

mutual

/-- Fuel-based recursive-descent parser for a JSON value, modelling
Python's json.loads on the JSON subset the program exchanges. -/
def parseValue : Nat → List Char → Option (JsonVal × List Char)
  | 0, _ => none
  | Nat.succ fuel, cs =>
    match skipWs cs with
    | 'n' :: 'u' :: 'l' :: 'l' :: rest => some (JsonVal.null, rest)
    | 't' :: 'r' :: 'u' :: 'e' :: rest => some (JsonVal.bool true, rest)
    | 'f' :: 'a' :: 'l' :: 's' :: 'e' :: rest => some (JsonVal.bool false, rest)
    | '"' :: rest =>
      match parseStringBody rest with
      | some (s, r) => some (JsonVal.str (String.mk s), r)
      | none => none
    | '[' :: rest =>
      match skipWs rest with
      | ']' :: r2 => some (JsonVal.arr [], r2)
      | r2 =>
        match parseElems fuel r2 with
        | some (vs, r3) => some (JsonVal.arr vs, r3)
        | none => none
    | '{' :: rest =>
      match skipWs rest with
      | '}' :: r2 => some (JsonVal.obj [], r2)
      | r2 =>
        match parseMembers fuel r2 with
        | some (kvs, r3) => some (JsonVal.obj kvs, r3)
        | none => none
    | rest => parseNumber rest

/-- Parse the comma-separated elements of a non-empty JSON array up to the
closing bracket. -/
def parseElems : Nat → List Char → Option (List JsonVal × List Char)
  | 0, _ => none
  | Nat.succ fuel, cs =>
    match parseValue fuel cs with
    | none => none
    | some (v, r1) =>
      match skipWs r1 with
      | ',' :: r2 =>
        match parseElems fuel r2 with
        | some (vs, r3) => some (v :: vs, r3)
        | none => none
      | ']' :: r2 => some ([v], r2)
      | _ => none

/-- Parse the comma-separated members of a non-empty JSON object up to the
closing brace. -/
def parseMembers : Nat → List Char → Option (List (String × JsonVal) × List Char)
  | 0, _ => none
  | Nat.succ fuel, cs =>
    match skipWs cs with
    | '"' :: r1 =>
      match parseStringBody r1 with
      | none => none
      | some (ks, r2) =>
        match skipWs r2 with
        | ':' :: r3 =>
          match parseValue fuel r3 with
          | none => none
          | some (v, r4) =>
            match skipWs r4 with
            | ',' :: r5 =>
              match parseMembers fuel r5 with
              | some (kvs, r6) => some ((String.mk ks, v) :: kvs, r6)
              | none => none
            | '}' :: r5 => some ([(String.mk ks, v)], r5)
            | _ => none
        | _ => none
    | _ => none

end

/-- Model of Python's json.loads: parse a whole string as one JSON value,
requiring only trailing whitespace afterwards; `none` is a parse failure
(json.loads raising). -/
def jsonParse (s : String) : Option JsonVal :=
  match parseValue (s.length + 1) s.data with
  | some (v, rest) => if skipWs rest = [] then some v else none
  | none => none

/-- parse_hedge_fund_response (src/main.py lines 105-112): returns
json.loads(response), and on any exception logs the payload and returns
Python None.  In this embedding the Lean value `none` is the Python value
None, which arises BOTH from the except branch and from a successful parse
of the JSON text "null" (json.loads returns the None object for it). -/
def parse_hedge_fund_response (response : String) : Option JsonVal :=
  match jsonParse response with
  | some JsonVal.null => none
  | some v => some v
  | none => none

/-- The shared state threaded through every agent call.  Only the fields the
claims are about are modelled: the message contents and data.analyst_signals
(signal payloads kept abstract as strings); tickers, dates, portfolio and
metadata are threaded opaquely by the source and carry no claim. -/
structure AgentState where
  messages : List String
  analyst_signals : List (String × String)
deriving Repr, DecidableEq, Inhabited

/-- An agent node: the calling convention `(SharedState) -> SharedState`. -/
abbrev AgentFn := AgentState → AgentState

/-- One entry of ANALYST_CONFIG (src/utils/analysts.py lines 6-42). -/
structure AnalystEntry where
  display_name : String
  key : String
  order : Nat
deriving Repr, DecidableEq

/-- ANALYST_CONFIG (src/utils/analysts.py lines 6-42), in source dict order. -/
def ANALYST_CONFIG : List (String × AnalystEntry) :=
  [("ben_graham", ⟨"Ben Graham", "ben_graham", 0⟩),
   ("bill_ackman", ⟨"Bill Ackman", "bill_ackman", 1⟩),
   ("warren_buffett", ⟨"Warren Buffett", "warren_buffett", 2⟩),
   ("technical_analyst", ⟨"Technical Analyst", "technicals", 3⟩),
   ("fundamentals_analyst", ⟨"Fundamentals Analyst", "fundamentals", 4⟩),
   ("sentiment_analyst", ⟨"Sentiment Analyst", "sentiment", 5⟩),
   ("valuation_analyst", ⟨"Valuation Analyst", "valuation", 6⟩)]

/-- The `order` field of a config entry (the sort key used for
ANALYST_ORDER). -/
def analystOrder (k : String) : Nat :=
  match ANALYST_CONFIG.find? (fun p => p.1 == k) with
  | some p => p.2.order
  | none => 0

/-- Stable insertion into a list sorted by `le`. -/
def insertByLe (le : String → String → Bool) (x : String) : List String → List String
  | [] => [x]
  | a :: rest => if le x a then x :: a :: rest else a :: insertByLe le x rest

/-- Insertion sort, modelling Python's sorted with a key function. -/
def sortByOrder : List String → List String
  | [] => []
  | a :: rest =>
    insertByLe (fun x y => decide (analystOrder x ≤ analystOrder y)) a (sortByOrder rest)

/-- ANALYST_ORDER (src/utils/analysts.py lines 45-48): config keys sorted by
ascending order value. -/
def ANALYST_ORDER : List String := sortByOrder (ANALYST_CONFIG.map Prod.fst)

/-- get_analyst_nodes (src/utils/analysts.py lines 81-89), the secured branch:
maps the seven analyst node keys to the corresponding secured agents.
`secured_agents` is the mapping returned by the securing phase. -/
def get_analyst_nodes (secured_agents : String → AgentFn) : List (String × AgentFn) :=
  [("ben_graham", secured_agents "ben_graham"),
   ("bill_ackman", secured_agents "bill_ackman"),
   ("warren_buffett", secured_agents "warren_buffett"),
   ("technical_analyst", secured_agents "technicals"),
   ("fundamentals_analyst", secured_agents "fundamentals"),
   ("sentiment_analyst", secured_agents "sentiment"),
   ("valuation_analyst", secured_agents "valuation")]

/-- The keys of the analyst node catalog, in source order. -/
def analystNodeKeys : List String :=
  ["ben_graham", "bill_ackman", "warren_buffett", "technical_analyst",
   "fundamentals_analyst", "sentiment_analyst", "valuation_analyst"]

/-- The secured-agent key that backs an analyst node key, per
get_analyst_nodes. -/
def pyKeyOf (k : String) : String :=
  if k == "technical_analyst" then "technicals"
  else if k == "fundamentals_analyst" then "fundamentals"
  else if k == "sentiment_analyst" then "sentiment"
  else if k == "valuation_analyst" then "valuation"
  else k

/-- The nine agent keys registered by secure_wrap_agents
(src/main.py lines 42-52), in source dict order. -/
def agentNames : List String :=
  ["warren_buffett", "ben_graham", "bill_ackman", "fundamentals", "technicals",
   "sentiment", "valuation", "portfolio", "risk"]

/-- langgraph's END marker. -/
def ENDk : String := "__end__"

/-- Model of a langgraph StateGraph: named nodes with their callables, the
added edges in insertion order, and the entry point. -/
structure StateGraph where
  nodes : List (String × AgentFn)
  edges : List (String × String)
  entry : Option String

/-- langgraph StateGraph.add_node: raises when the key is already present. -/
def addNode (g : StateGraph) (k : String) (f : AgentFn) : Except String StateGraph :=
  if g.nodes.any (fun p => p.1 == k) then Except.error ("Node " ++ k ++ " already present.")
  else Except.ok { g with nodes := g.nodes ++ [(k, f)] }

/-- langgraph StateGraph.add_edge: records the edge (existence of the
endpoints is only checked later, at compile time). -/
def addEdge (g : StateGraph) (a b : String) : StateGraph :=
  { g with edges := g.edges ++ [(a, b)] }

/-- The synthetic start node of create_workflow (src/main.py lines 123-125):
returns the state unchanged. -/
def start_node : AgentFn := fun st => st

/-- The analyst-adding loop of create_workflow (src/main.py lines 130-135):
for each selected analyst present in the catalog, add its node and, when it
equals the first selected analyst, the edge from START. -/
def addAnalysts (selected : List String) (analyst_nodes : List (String × AgentFn)) :
    List String → StateGraph → Except String StateGraph
  | [], g => Except.ok g
  | a :: rest, g =>
    match analyst_nodes.find? (fun p => p.1 == a) with
    | none => addAnalysts selected analyst_nodes rest g
    | some p =>
      match addNode g a p.2 with
      | Except.error e => Except.error e
      | Except.ok g1 =>
        let g2 := if selected.head? == some a then addEdge g1 "START" a else g1
        addAnalysts selected analyst_nodes rest g2

/-- create_workflow (src/main.py lines 114-148): build the StateGraph for the
selected analysts over the secured agents — START node, analyst nodes with
the START edge to the first, chain edges between consecutive selections, an
edge from the last selection to END, and entry point START. -/
def create_workflow (selected_analysts : List String)
    (secured_agents : String → AgentFn) : Except String StateGraph :=
  let analyst_nodes := get_analyst_nodes secured_agents
  let g0 : StateGraph := { nodes := [("START", start_node)], edges := [], entry := none }
  match addAnalysts selected_analysts analyst_nodes selected_analysts g0 with
  | Except.error e => Except.error e
  | Except.ok g1 =>
    let g2 := { g1 with edges := g1.edges ++ selected_analysts.zip selected_analysts.tail }
    let g3 :=
      match selected_analysts.getLast? with
      | some last => { g2 with edges := g2.edges ++ [(last, ENDk)] }
      | none => g2
    Except.ok { g3 with entry := some "START" }

/-- Sequential execution of the compiled graph from a given node: run the
node's callable, follow its (first-recorded) outgoing edge, stop at END;
a node with no outgoing edge ends the run with the current state; a missing
node is a runtime failure (none).  Also returns the trace of executed node
keys. -/
def invokeFrom (g : StateGraph) : Nat → String → AgentState → List String →
    Option AgentState × List String
  | 0, _, _, tr => (none, tr)
  | Nat.succ fuel, cur, st, tr =>
    match g.nodes.find? (fun p => p.1 == cur) with
    | none => (none, tr)
    | some p =>
      let st1 := p.2 st
      let tr1 := tr ++ [cur]
      match g.edges.find? (fun e => e.1 == cur) with
      | none => (some st1, tr1)
      | some e => if e.2 == ENDk then (some st1, tr1) else invokeFrom g fuel e.2 st1 tr1

/-- Invoke the compiled graph on an initial state, starting from the entry
point (the single invocation the executor performs per run). -/
def invoke (g : StateGraph) (st : AgentState) : Option AgentState × List String :=
  match g.entry with
  | none => (none, [])
  | some e => invokeFrom g (g.nodes.length + 1) e st []

/-- Outcome of secure_wrap_agents (src/main.py lines 39-103): the loop
secures all nine agents, then asyncio.gather runs verify_identity for every
one of them, and `if not all(agents_valid)` raises ValueError; on success the
secured mapping covers exactly the nine registry keys.  `verify` gives each
agent's verification result. -/
def secure_wrap_agents (verify : String → Bool) : Except String (List String) :=
  if agentNames.all verify then Except.ok agentNames
  else Except.error "Agent verification failed"

/-- Interleaving events of the securing phase, for the concurrency claims. -/
inductive SecEvent where
  | regStart (k : String)
  | regEnd (k : String)
  | verStart (k : String)
  | verEnd (k : String)
deriving Repr, DecidableEq, BEq

/-- Event trace of secure_wrap_agents (src/main.py lines 70-92).  The
registration loop awaits client.secure_connect for each agent in turn, so
each registration starts and completes before the next one starts; the
verification calls are issued through asyncio.gather, so every verification
is started before any is awaited (fan-out, then fan-in). -/
def secure_wrap_trace : List SecEvent :=
  (agentNames.map (fun k => [SecEvent.regStart k, SecEvent.regEnd k])).flatten
    ++ agentNames.map SecEvent.verStart ++ agentNames.map SecEvent.verEnd

/-- Observable events of one run_hedge_fund invocation. -/
inductive REvent where
  | secureConnect (k : String)
  | verifyIdentity (k : String)
  | buildReject
  | nodeCall (k : String)
deriving Repr, DecidableEq, BEq

/-- The securing-phase events of a run: all nine secure_connect calls, then
all nine verify_identity calls (these happen whether or not verification
succeeds). -/
def secureEvents : List REvent :=
  agentNames.map REvent.secureConnect ++ agentNames.map REvent.verifyIdentity

/-- The run result dict built at src/main.py lines 208-211. -/
structure RunResult where
  decisions : Option JsonVal
  analyst_signals : List (String × String)

/-- Everything observable about one run_hedge_fund invocation: the Python
return/raise behaviour (`Except.error` = an exception escaped to the caller,
`Except.ok none` = the except handler returned None, `Except.ok (some r)` =
normal return), whether a pipeline was built and compiled, and the event
trace. -/
structure RunOutcome where
  result : Except String (Option RunResult)
  pipelineBuilt : Bool
  events : List REvent

/-- The initial state passed to agent.invoke (src/main.py lines 186-206). -/
def initialRunState : AgentState :=
  { messages := ["Make trading decisions based on the provided data."], analyst_signals := [] }

/-- run_hedge_fund (src/main.py lines 151-221).  Inputs: the AZTP_API_KEY
environment value, each agent's verification result, the secured agent
behaviours, and selected_analysts.  Control flow from the source: a missing
API key raises ValueError inside the try block BEFORE `client` is assigned,
so the except handler's `hasattr(client, 'config')` itself raises
UnboundLocalError, which escapes; after `client` is bound, every exception is
caught and the function returns None; otherwise the workflow for the selected
analysts (or ANALYST_ORDER when none are given) is compiled and invoked once,
and the result dict is built from the final state. -/
def run_hedge_fund (apiKey : Option String) (verify : String → Bool)
    (secured_agents : String → AgentFn) (selected_analysts : List String) : RunOutcome :=
  match apiKey with
  | none =>
    { result := Except.error "UnboundLocalError: local variable client referenced before assignment",
      pipelineBuilt := false, events := [] }
  | some _ =>
    match secure_wrap_agents verify with
    | Except.error _ =>
      { result := Except.ok none, pipelineBuilt := false, events := secureEvents }
    | Except.ok _ =>
      let sel := if selected_analysts.isEmpty then ANALYST_ORDER else selected_analysts
      match create_workflow sel secured_agents with
      | Except.error _ =>
        { result := Except.ok none, pipelineBuilt := false,
          events := secureEvents ++ [REvent.buildReject] }
      | Except.ok g =>
        match invoke g initialRunState with
        | (none, tr) =>
          { result := Except.ok none, pipelineBuilt := true,
            events := secureEvents ++ tr.map REvent.nodeCall }
        | (some fin, tr) =>
          match fin.messages.getLast? with
          | none =>
            { result := Except.ok none, pipelineBuilt := true,
              events := secureEvents ++ tr.map REvent.nodeCall }
          | some m =>
            { result := Except.ok (some
                { decisions := parse_hedge_fund_response m,
                  analyst_signals := fin.analyst_signals }),
              pipelineBuilt := true, events := secureEvents ++ tr.map REvent.nodeCall }

/-- Agents that return the state unchanged; used as concrete secured-agent
instances. -/
def idAgents : String → AgentFn := fun _ st => st

/-- Whether the run returned the sentinel failure value None (as opposed to
raising or returning a result dict). -/
def returnedNoneSentinel (o : RunOutcome) : Bool :=
  match o.result with
  | Except.ok none => true
  | _ => false

/-- The node keys of a build result (empty on a build error). -/
def builtNodeKeys (r : Except String StateGraph) : List String :=
  match r with
  | Except.ok g => g.nodes.map Prod.fst
  | Except.error _ => []

/-- The edges of a build result (empty on a build error). -/
def builtEdges (r : Except String StateGraph) : List (String × String) :=
  match r with
  | Except.ok g => g.edges
  | Except.error _ => []

/-- The edges of the workflow built from the empty key list (with the
claimed start-to-end edge as the fallback, so the theorem below can only be
proved if the build succeeds). -/
def emptyBuildEdges : List (String × String) :=
  match create_workflow [] idAgents with
  | Except.ok g => g.edges
  | Except.error _ => [("START", ENDk)]

/-- The build requested for a key absent from the analyst catalog. -/
def c5Build : Except String StateGraph := create_workflow ["moon_phase"] idAgents

/-- The successor of a key inside a chain of keys: the next key, or the END
marker after the last one. -/
def succIn : List String → String → Option String
  | [], _ => none
  | [a], k => if a = k then some ENDk else none
  | a :: b :: rest, k => if a = k then some b else succIn (b :: rest) k

/-- The edge from the last selected analyst to END, when there is one. -/
def lastEdge (selected : List String) : List (String × String) :=
  match selected.getLast? with
  | some last => [(last, ENDk)]
  | none => []

/-- A concrete secured-agent behaviour that appends one ben_graham signal. -/
def wSecured : String → AgentFn := fun _ st =>
  { st with analyst_signals := st.analyst_signals ++ [("ben_graham", "bullish")] }

example : ANALYST_ORDER = analystNodeKeys := by decide
example : (get_analyst_nodes (fun _ st => st)).map Prod.fst = analystNodeKeys := rfl

/-- C3, counterexample: building from the empty key list does NOT connect the
start node to the end marker — the edge from the last analyst to END is
guarded by `if selected_analysts:` (src/main.py line 142), so the empty build
has no edges at all. -/
theorem c3_counterexample : ("START", ENDk) ∉ emptyBuildEdges := by decide

/-- C3, amended: building a pipeline from the empty key list succeeds and
produces a graph with only the START node, entry point START and no edges at
all (in particular no edge from start to the end marker); the start node
itself returns the state unchanged. -/
theorem c3_empty_build (secured_agents : String → AgentFn) :
    create_workflow [] secured_agents
      = Except.ok { nodes := [("START", start_node)], edges := [], entry := some "START" } ∧
    (∀ st, start_node st = st) :=
  ⟨rfl, fun _ => rfl⟩

/-- C5, counterexample: requesting the unknown key "moon_phase" does NOT fail
before pipeline construction — create_workflow succeeds, silently drops the
key from the node set, and still records a dangling edge to END that
references it. -/
theorem c5_counterexample :
    c5Build.isOk = true ∧ "moon_phase" ∉ builtNodeKeys c5Build ∧
    ("moon_phase", ENDk) ∈ builtEdges c5Build := by decide

/-- C6, counterexample: in the securing phase's event trace, the registration
of the first agent completes before the registration of the second one even
starts — registrations are awaited one by one (src/main.py lines 71-84), not
issued concurrently. -/
theorem c6_counterexample :
    secure_wrap_trace.indexOf (SecEvent.regEnd "warren_buffett") <
    secure_wrap_trace.indexOf (SecEvent.regStart "ben_graham") := by decide

/-- C6, amended: registration is sequential — for any two agents in registry
order, the earlier agent's registration completes before the later one's
starts — while verification is concurrent with a fan-out/fan-in barrier:
every verification is started before any is awaited. -/
theorem c6_registration_sequential :
    (∀ i, i < 9 → ∀ j, j < 9 → i < j →
        secure_wrap_trace.indexOf (SecEvent.regEnd (agentNames.getD i "")) <
        secure_wrap_trace.indexOf (SecEvent.regStart (agentNames.getD j ""))) ∧
    (∀ i, i < 9 → ∀ j, j < 9 →
        secure_wrap_trace.indexOf (SecEvent.verStart (agentNames.getD i "")) <
        secure_wrap_trace.indexOf (SecEvent.verEnd (agentNames.getD j ""))) := by decide

/-- C7: evaluating run_hedge_fund at the failing input (AZTP_API_KEY unset).
The ValueError is raised before `client` is assigned, so the except handler's
`hasattr(client, 'config')` (src/main.py line 217) itself raises
UnboundLocalError, which escapes to the caller instead of the sentinel None
return the claim requires. -/
theorem c7_unbound_client_escape :
    (run_hedge_fund none (fun _ => true) idAgents []).result
        = Except.error "UnboundLocalError: local variable client referenced before assignment" ∧
    returnedNoneSentinel (run_hedge_fund none (fun _ => true) idAgents []) = false :=
  ⟨rfl, rfl⟩

/-- C8: the decision extractor returns the structured decision (one entry for
AAPL) on the well-formed JSON mapping, and returns null on malformed text
without raising. -/
theorem c8_extract_decision :
    parse_hedge_fund_response "\x7b\"AAPL\": \x7b\"action\":\"buy\",\"quantity\":10\x7d\x7d"
      = some (JsonVal.obj [("AAPL", JsonVal.obj
          [("action", JsonVal.str "buy"), ("quantity", JsonVal.num 10)])]) ∧
    parse_hedge_fund_response "not json" = none :=
  ⟨rfl, rfl⟩

/-- C10: the decision parser returns None both for unparseable text and for
the valid JSON text "null" (indistinguishable to the caller), and returns
successfully parsed non-mapping values — numbers, strings, lists — as-is
without validation. -/
theorem c10_null_conflation :
    parse_hedge_fund_response "null" = none ∧
    parse_hedge_fund_response "this is not json" = none ∧
    parse_hedge_fund_response "3" = some (JsonVal.num 3) ∧
    parse_hedge_fund_response "\"hi\"" = some (JsonVal.str "hi") ∧
    parse_hedge_fund_response "[1, 2]" = some (JsonVal.arr [JsonVal.num 1, JsonVal.num 2]) :=
  ⟨rfl, rfl, rfl, rfl, rfl⟩

/-- C4, counterexample: requesting the duplicated key list
[ben_graham, ben_graham] is rejected by the builder, but only AFTER the whole
securing phase: the first securing call is event 0 of the run while the
builder rejection is event 18 (after nine registrations and nine
verifications). -/
theorem c4_counterexample :
    ((run_hedge_fund (some "key") (fun _ => true) idAgents
        ["ben_graham", "ben_graham"]).events.indexOf (REvent.secureConnect "warren_buffett") = 0) ∧
    ((run_hedge_fund (some "key") (fun _ => true) idAgents
        ["ben_graham", "ben_graham"]).events.indexOf REvent.buildReject = 18) := by decide

/-- The key check done by add_node, as membership in the key list. -/
theorem any_key_iff (l : List (String × AgentFn)) (k : String) :
    l.any (fun p => p.1 == k) = true ↔ k ∈ l.map Prod.fst := by
  simp [List.any_eq_true, List.mem_map]

/-- What a successful add_node did to the graph. -/
theorem addNode_ok {g : StateGraph} {k : String} {f : AgentFn} {g1 : StateGraph}
    (h : addNode g k f = Except.ok g1) :
    g1 = { g with nodes := g.nodes ++ [(k, f)] } ∧ k ∉ g.nodes.map Prod.fst := by
  unfold addNode at h
  by_cases hc : g.nodes.any (fun p => p.1 == k) = true
  · rw [if_pos hc] at h; cases h
  · rw [if_neg hc] at h
    refine ⟨(Except.ok.inj h).symm, ?_⟩
    intro hmem
    exact hc ((any_key_iff g.nodes k).mpr hmem)

/-- In the catalog, find? on an analyst node key returns that key's secured
agent. -/
theorem find_analyst_nodes (secured_agents : String → AgentFn) (k : String)
    (hk : k ∈ analystNodeKeys) :
    (get_analyst_nodes secured_agents).find? (fun p => p.1 == k)
      = some (k, secured_agents (pyKeyOf k)) := by
  simp only [analystNodeKeys, List.mem_cons, List.not_mem_nil, or_false] at hk
  rcases hk with rfl | rfl | rfl | rfl | rfl | rfl | rfl <;> rfl

/-- No analyst node key is the START marker. -/
theorem analyst_keys_ne_start : ∀ k ∈ analystNodeKeys, k ≠ "START" := by decide

/-- No analyst node key is the END marker. -/
theorem analyst_keys_ne_end : ∀ k ∈ analystNodeKeys, k ≠ ENDk := by decide

/-- Shape of a successful analyst-adding loop: it appends one node per key
(in order) and one START edge for each key equal to the first selected
analyst, and touches nothing else. -/
theorem addAnalysts_ok (secured_agents : String → AgentFn) (sel : List String) :
    ∀ (ks : List String) (g : StateGraph),
      ks.Nodup → (∀ k ∈ ks, k ∈ analystNodeKeys) →
      (∀ k ∈ ks, k ∉ g.nodes.map Prod.fst) →
      addAnalysts sel (get_analyst_nodes secured_agents) ks g = Except.ok
        { nodes := g.nodes ++ ks.map (fun k => (k, secured_agents (pyKeyOf k))),
          edges := g.edges
            ++ (ks.filter (fun k => sel.head? == some k)).map (fun k => ("START", k)),
          entry := g.entry } := by
  intro ks
  induction ks with
  | nil =>
    intro g _ _ _
    simp [addAnalysts]
  | cons a rest ih =>
    intro g hnd hsub hnot
    have ha : a ∈ analystNodeKeys := hsub a (List.mem_cons_self a rest)
    have hna : a ∉ g.nodes.map Prod.fst := hnot a (List.mem_cons_self a rest)
    have hcond : ¬ (g.nodes.any (fun p => p.1 == a) = true) :=
      fun hc => hna ((any_key_iff g.nodes a).mp hc)
    have hanr : a ∉ rest := (List.nodup_cons.mp hnd).1
    have hnd' : rest.Nodup := (List.nodup_cons.mp hnd).2
    have hsub' : ∀ k ∈ rest, k ∈ analystNodeKeys :=
      fun k hk => hsub k (List.mem_cons_of_mem a hk)
    have hfind := find_analyst_nodes secured_agents a ha
    have hstep : addAnalysts sel (get_analyst_nodes secured_agents) (a :: rest) g
        = addAnalysts sel (get_analyst_nodes secured_agents) rest
            (if (sel.head? == some a) = true
             then addEdge { g with nodes := g.nodes ++ [(a, secured_agents (pyKeyOf a))] }
                    "START" a
             else { g with nodes := g.nodes ++ [(a, secured_agents (pyKeyOf a))] }) := by
      simp only [addAnalysts, hfind, addNode, if_neg hcond]
    rw [hstep]
    by_cases hhead : (sel.head? == some a) = true
    · rw [if_pos hhead]
      have hnot' : ∀ k ∈ rest,
          k ∉ (addEdge { g with nodes := g.nodes ++ [(a, secured_agents (pyKeyOf a))] }
                "START" a).nodes.map Prod.fst := by
        intro k hk
        have h1 : k ∉ g.nodes.map Prod.fst := hnot k (List.mem_cons_of_mem a hk)
        have h2 : k ≠ a := fun he => hanr (he ▸ hk)
        simp [addEdge, h1, h2]
      rw [ih _ hnd' hsub' hnot']
      simp [addEdge, List.filter_cons, hhead, List.append_assoc]
    · rw [if_neg hhead]
      have hnot' : ∀ k ∈ rest,
          k ∉ ({ g with nodes := g.nodes ++ [(a, secured_agents (pyKeyOf a))] }
                : StateGraph).nodes.map Prod.fst := by
        intro k hk
        have h1 : k ∉ g.nodes.map Prod.fst := hnot k (List.mem_cons_of_mem a hk)
        have h2 : k ≠ a := fun he => hanr (he ▸ hk)
        simp [h1, h2]
      rw [ih _ hnd' hsub' hnot']
      simp [List.filter_cons, hhead, List.append_assoc]

/-- lastEdge only depends on the last element. -/
theorem lastEdge_cons_cons (a b : String) (l : List String) :
    lastEdge (a :: b :: l) = lastEdge (b :: l) := by
  simp [lastEdge, List.getLast?_cons_cons]

/-- Shape of a successful create_workflow over distinct catalog keys. -/
theorem create_workflow_ok (S : List String) (secured_agents : String → AgentFn)
    (hnd : S.Nodup) (hsub : ∀ k ∈ S, k ∈ analystNodeKeys) :
    create_workflow S secured_agents = Except.ok
      { nodes := ("START", start_node) :: S.map (fun k => (k, secured_agents (pyKeyOf k))),
        edges := (S.filter (fun k => S.head? == some k)).map (fun k => ("START", k))
          ++ S.zip S.tail ++ lastEdge S,
        entry := some "START" } := by
  have hnot : ∀ k ∈ S,
      k ∉ (([("START", start_node)] : List (String × AgentFn)).map Prod.fst) := by
    intro k hk
    simp
    exact analyst_keys_ne_start k (hsub k hk)
  have haa := addAnalysts_ok secured_agents S S
      { nodes := [("START", start_node)], edges := [], entry := none } hnd hsub hnot
  simp only [create_workflow]
  rw [haa]
  cases hl : S.getLast? with
  | none => simp [lastEdge, hl, List.append_assoc]
  | some last => simp [lastEdge, hl, List.append_assoc]

/-- With distinct keys, only the head matches the head-edge condition of the
analyst loop. -/
theorem filter_head_eq (k0 : String) (rest : List String) (hk0 : k0 ∉ rest) :
    ((k0 :: rest).filter (fun k => (k0 :: rest).head? == some k)) = [k0] := by
  simp only [List.head?_cons, List.filter_cons]
  have h1 : (some k0 == some k0) = true := by simp
  rw [if_pos h1]
  have h2 : rest.filter (fun k => some k0 == some k) = [] := by
    rw [List.filter_eq_nil_iff]
    intro b hb
    simp only [beq_iff_eq, Option.some.injEq]
    exact fun he => hk0 (by rw [he]; exact hb)
  rw [h2]

/-- find? over the per-key node pairs returns the pair of the key. -/
theorem find_map_pair (nf : String → AgentFn) :
    ∀ (S : List String) (k : String), k ∈ S →
      (S.map (fun x => (x, nf x))).find? (fun p => p.1 == k) = some (k, nf k) := by
  intro S
  induction S with
  | nil => intro k hk; cases hk
  | cons a rest ih =>
    intro k hk
    by_cases hak : a = k
    · subst hak
      rw [List.map_cons, List.find?_cons_of_pos _ (by simp)]
    · have hkr : k ∈ rest := by
        rcases List.mem_cons.mp hk with h | h
        · exact absurd h.symm hak
        · exact h
      rw [List.map_cons, List.find?_cons_of_neg _ (by simp [hak])]
      exact ih k hkr

/-- find? over the chain edges of a duplicate-free selection returns the edge
to the successor (or to END after the last key). -/
theorem find_chain :
    ∀ (S : List String), S.Nodup → ∀ k ∈ S,
      (S.zip S.tail ++ lastEdge S).find? (fun e => e.1 == k)
        = (succIn S k).map (fun x => (k, x)) := by
  intro S
  induction S with
  | nil => intro _ k hk; cases hk
  | cons a rest ih =>
    intro hnd k hk
    cases rest with
    | nil =>
      have hka : k = a := by simpa using hk
      subst hka
      simp [lastEdge, succIn, List.find?]
    | cons b rest2 =>
      have hnd' : (b :: rest2).Nodup := (List.nodup_cons.mp hnd).2
      have hanr : a ∉ b :: rest2 := (List.nodup_cons.mp hnd).1
      have hexp : ((a :: b :: rest2).zip (a :: b :: rest2).tail
            ++ lastEdge (a :: b :: rest2))
          = (a, b) :: ((b :: rest2).zip (b :: rest2).tail ++ lastEdge (b :: rest2)) := by
        rw [lastEdge_cons_cons]
        simp [List.zip_cons_cons]
      rw [hexp]
      by_cases hak : a = k
      · subst hak
        rw [List.find?_cons_of_pos _ (by simp)]
        simp [succIn]
      · have hkr : k ∈ b :: rest2 := by
          rcases List.mem_cons.mp hk with h | h
          · exact absurd h.symm hak
          · exact h
        rw [List.find?_cons_of_neg _ (by simp [hak])]
        rw [ih hnd' k hkr]
        have hs : succIn (a :: b :: rest2) k = succIn (b :: rest2) k := by
          simp [succIn, hak]
        rw [hs]

/-- Sequential execution of a duplicate-free chain: starting from the head,
the executor applies each node's callable in order and stops at END, having
traced exactly the chain's keys. -/
theorem invokeFrom_chain (g : StateGraph) (nf : String → AgentFn) :
    ∀ (ks : List String) (fuel : Nat) (st : AgentState) (tr : List String),
      ks ≠ [] → ks.Nodup → ks.length ≤ fuel →
      (∀ k ∈ ks, k ≠ ENDk) →
      (∀ k ∈ ks, g.nodes.find? (fun p => p.1 == k) = some (k, nf k)) →
      (∀ k ∈ ks, g.edges.find? (fun e => e.1 == k) = (succIn ks k).map (fun x => (k, x))) →
      invokeFrom g fuel (ks.headD "") st tr
        = (some (ks.foldl (fun s k => nf k s) st), tr ++ ks) := by
  intro ks
  induction ks with
  | nil => intro fuel st tr hne; exact absurd rfl hne
  | cons a rest ih =>
    intro fuel st tr _ hnd hfuel hend hnode hedge
    cases fuel with
    | zero => simp at hfuel
    | succ f =>
      have hna := hnode a (List.mem_cons_self a rest)
      have hea := hedge a (List.mem_cons_self a rest)
      cases rest with
      | nil =>
        have hsucc : succIn [a] a = some ENDk := by simp [succIn]
        rw [hsucc] at hea
        have hstep : invokeFrom g (Nat.succ f) a st tr = (some (nf a st), tr ++ [a]) := by
          simp only [invokeFrom, hna, hea, Option.map_some]
          simp
        simpa using hstep
      | cons b rest2 =>
        have hsucc : succIn (a :: b :: rest2) a = some b := by simp [succIn]
        rw [hsucc] at hea
        have hanr : a ∉ b :: rest2 := (List.nodup_cons.mp hnd).1
        have hnd' : (b :: rest2).Nodup := (List.nodup_cons.mp hnd).2
        have hbend : (b == ENDk) = false := by
          simp only [beq_eq_false_iff_ne, ne_eq]
          exact hend b (List.mem_cons_of_mem a (List.mem_cons_self b rest2))
        have hstep : invokeFrom g (Nat.succ f) a st tr
            = invokeFrom g f b (nf a st) (tr ++ [a]) := by
          simp only [invokeFrom, hna, hea, Option.map_some]
          simp [hbend]
        simp only [List.headD]
        rw [hstep]
        have hfuel' : (b :: rest2).length ≤ f := by
          simp at hfuel ⊢
          omega
        have hend' : ∀ k ∈ b :: rest2, k ≠ ENDk :=
          fun k hk => hend k (List.mem_cons_of_mem a hk)
        have hnode' : ∀ k ∈ b :: rest2, g.nodes.find? (fun p => p.1 == k) = some (k, nf k) :=
          fun k hk => hnode k (List.mem_cons_of_mem a hk)
        have hedge' : ∀ k ∈ b :: rest2,
            g.edges.find? (fun e => e.1 == k) = (succIn (b :: rest2) k).map (fun x => (k, x)) := by
          intro k hk
          have hak : ¬ a = k := fun he => hanr (by rw [he]; exact hk)
          rw [hedge k (List.mem_cons_of_mem a hk)]
          simp [succIn, hak]
        have := ih f (nf a st) (tr ++ [a]) (by simp) hnd' hfuel' hend' hnode' hedge'
        simp only [List.headD] at this ⊢
        rw [this]
        simp

/-- Folding writer agents over a chain appends exactly one signal per key, in
chain order. -/
theorem foldl_signals (nf : String → AgentFn) (sig : String → AgentState → String) :
    ∀ (S : List String) (st : AgentState),
      (∀ k ∈ S, ∀ s, (nf k s).analyst_signals = s.analyst_signals ++ [(k, sig k s)]) →
      ((S.foldl (fun s k => nf k s) st).analyst_signals).map Prod.fst
        = st.analyst_signals.map Prod.fst ++ S := by
  intro S
  induction S with
  | nil => intro st _; simp
  | cons a rest ih =>
    intro st hw
    rw [List.foldl_cons]
    rw [ih (nf a st) (fun k hk s => hw k (List.mem_cons_of_mem a hk) s)]
    rw [hw a (List.mem_cons_self a rest) st]
    simp

/-- C2: for every non-empty duplicate-free list S of registered analyst keys,
the pipeline built from S, invoked on a state whose analyst_signals start
empty, ends with analyst_signals keyed exactly by S (in order), under the
hypothesis that every selected agent succeeds and appends exactly one signal
under its own key. -/
theorem c2_signal_keys (S : List String) (secured_agents : String → AgentFn)
    (sig : String → AgentState → String)
    (hne : S ≠ []) (hnd : S.Nodup) (hsub : ∀ k ∈ S, k ∈ analystNodeKeys)
    (hwrite : ∀ k ∈ S, ∀ st, (secured_agents (pyKeyOf k) st).analyst_signals
        = st.analyst_signals ++ [(k, sig k st)])
    (st0 : AgentState) (h0 : st0.analyst_signals = []) :
    ∃ g fin tr, create_workflow S secured_agents = Except.ok g ∧
      invoke g st0 = (some fin, tr) ∧
      fin.analyst_signals.map Prod.fst = S := by
  obtain ⟨k0, Srest, rfl⟩ : ∃ k0 Srest, S = k0 :: Srest := by
    cases S with
    | nil => exact absurd rfl hne
    | cons a r => exact ⟨a, r, rfl⟩
  have hk0nr : k0 ∉ Srest := (List.nodup_cons.mp hnd).1
  have hcw := create_workflow_ok (k0 :: Srest) secured_agents hnd hsub
  rw [filter_head_eq k0 Srest hk0nr] at hcw
  simp only [List.map_cons, List.map_nil, List.append_assoc, List.singleton_append] at hcw
  refine ⟨{ nodes := ("START", start_node)
              :: (k0 :: Srest).map (fun k => (k, secured_agents (pyKeyOf k))),
            edges := ("START", k0)
              :: ((k0 :: Srest).zip (k0 :: Srest).tail ++ lastEdge (k0 :: Srest)),
            entry := some "START" },
          (k0 :: Srest).foldl (fun s k => secured_agents (pyKeyOf k) s) st0,
          "START" :: k0 :: Srest, hcw, ?_, ?_⟩
  · have hstart_node : (( ("START", start_node)
          :: (k0 :: Srest).map (fun k => (k, secured_agents (pyKeyOf k))))).find?
          (fun p => p.1 == "START") = some ("START", start_node) :=
      List.find?_cons_of_pos _ (by simp)
    have hstart_edge : (( ("START", k0)
          :: ((k0 :: Srest).zip (k0 :: Srest).tail ++ lastEdge (k0 :: Srest)))).find?
          (fun e => e.1 == "START") = some ("START", k0) :=
      List.find?_cons_of_pos _ (by simp)
    have hk0end : (k0 == ENDk) = false := by
      simp only [beq_eq_false_iff_ne, ne_eq]
      exact analyst_keys_ne_end k0 (hsub k0 (List.mem_cons_self k0 Srest))
    have hnode : ∀ k ∈ k0 :: Srest,
        (( ("START", start_node)
            :: (k0 :: Srest).map (fun k => (k, secured_agents (pyKeyOf k))))).find?
            (fun p => p.1 == k) = some (k, secured_agents (pyKeyOf k)) := by
      intro k hk
      have hkS : k ≠ "START" := analyst_keys_ne_start k (hsub k hk)
      rw [List.find?_cons_of_neg _ (by simp [Ne.symm hkS])]
      exact find_map_pair (fun k => secured_agents (pyKeyOf k)) (k0 :: Srest) k hk
    have hedge : ∀ k ∈ k0 :: Srest,
        (( ("START", k0)
            :: ((k0 :: Srest).zip (k0 :: Srest).tail ++ lastEdge (k0 :: Srest)))).find?
            (fun e => e.1 == k)
          = (succIn (k0 :: Srest) k).map (fun x => (k, x)) := by
      intro k hk
      have hkS : k ≠ "START" := analyst_keys_ne_start k (hsub k hk)
      rw [List.find?_cons_of_neg _ (by simp [Ne.symm hkS])]
      exact find_chain (k0 :: Srest) hnd k hk
    have hend : ∀ k ∈ k0 :: Srest, k ≠ ENDk :=
      fun k hk => analyst_keys_ne_end k (hsub k hk)
    have hchain := invokeFrom_chain
        { nodes := ("START", start_node)
            :: (k0 :: Srest).map (fun k => (k, secured_agents (pyKeyOf k))),
          edges := ("START", k0)
            :: ((k0 :: Srest).zip (k0 :: Srest).tail ++ lastEdge (k0 :: Srest)),
          entry := some "START" }
        (fun k => secured_agents (pyKeyOf k)) (k0 :: Srest) (Srest.length + 2) st0 ["START"]
        (by simp) hnd (by simp) hend hnode hedge
    simp only [List.headD] at hchain
    have hstep : invokeFrom
        { nodes := ("START", start_node)
            :: (k0 :: Srest).map (fun k => (k, secured_agents (pyKeyOf k))),
          edges := ("START", k0)
            :: ((k0 :: Srest).zip (k0 :: Srest).tail ++ lastEdge (k0 :: Srest)),
          entry := some "START" }
        (Nat.succ (Srest.length + 2)) "START" st0 []
        = invokeFrom
        { nodes := ("START", start_node)
            :: (k0 :: Srest).map (fun k => (k, secured_agents (pyKeyOf k))),
          edges := ("START", k0)
            :: ((k0 :: Srest).zip (k0 :: Srest).tail ++ lastEdge (k0 :: Srest)),
          entry := some "START" }
        (Srest.length + 2) k0 st0 ["START"] := by
      simp only [invokeFrom, hstart_node, hstart_edge]
      simp [hk0end, start_node]
    simp only [invoke]
    have hlen : (( ("START", start_node)
        :: (k0 :: Srest).map (fun k => (k, secured_agents (pyKeyOf k))))).length + 1
        = Nat.succ (Srest.length + 2) := by
      simp [List.length_map]
    rw [hlen, hstep, hchain]
    simp
  · have hsig := foldl_signals (fun k => secured_agents (pyKeyOf k)) sig (k0 :: Srest) st0 hwrite
    rw [hsig, h0]
    simp

/-- C2, witness: the singleton pipeline [ben_graham] with a writer agent ends
with exactly that one signal key. -/
theorem c2_signal_keys_witness :
    ∃ g fin tr, create_workflow ["ben_graham"] wSecured = Except.ok g ∧
      invoke g { messages := [], analyst_signals := [] } = (some fin, tr) ∧
      fin.analyst_signals.map Prod.fst = ["ben_graham"] :=
  c2_signal_keys ["ben_graham"] wSecured (fun _ _ => "bullish")
    (by decide) (by decide) (by decide)
    (fun k hk st => by
      have hkb : k = "ben_graham" := by simpa using hk
      subst hkb
      rfl)
    { messages := [], analyst_signals := [] } rfl

/-- C1: whenever any agent's verification returns false, secure_wrap_agents
raises, and the run builds no pipeline, performs no agent call and returns
the sentinel None. -/
theorem c1_verification_gate (verify : String → Bool) (secured_agents : String → AgentFn)
    (selected_analysts : List String) (apiKey : String)
    (h : ∃ k ∈ agentNames, verify k = false) :
    secure_wrap_agents verify = Except.error "Agent verification failed" ∧
    (run_hedge_fund (some apiKey) verify secured_agents selected_analysts).pipelineBuilt
        = false ∧
    (∀ j, REvent.nodeCall j ∉
        (run_hedge_fund (some apiKey) verify secured_agents selected_analysts).events) ∧
    returnedNoneSentinel
        (run_hedge_fund (some apiKey) verify secured_agents selected_analysts) = true := by
  obtain ⟨k, hk, hvk⟩ := h
  have hall : agentNames.all verify = false := by
    rw [List.all_eq_false]
    exact ⟨k, hk, by simp [hvk]⟩
  have hsw : secure_wrap_agents verify = Except.error "Agent verification failed" := by
    simp [secure_wrap_agents, hall]
  refine ⟨hsw, ?_, ?_, ?_⟩
  · simp [run_hedge_fund, hsw]
  · intro j
    simp [run_hedge_fund, hsw, secureEvents, List.mem_append, List.mem_map]
  · simp [run_hedge_fund, hsw, returnedNoneSentinel]

/-- C1, witness: the risk agent's verification returning false aborts the
whole run before any pipeline or agent call. -/
theorem c1_verification_gate_witness :
    secure_wrap_agents (fun k => !(k == "risk")) = Except.error "Agent verification failed" ∧
    (run_hedge_fund (some "key") (fun k => !(k == "risk")) idAgents []).pipelineBuilt
        = false ∧
    (∀ j, REvent.nodeCall j ∉
        (run_hedge_fund (some "key") (fun k => !(k == "risk")) idAgents []).events) ∧
    returnedNoneSentinel
        (run_hedge_fund (some "key") (fun k => !(k == "risk")) idAgents []) = true :=
  c1_verification_gate (fun k => !(k == "risk")) idAgents [] "key"
    ⟨"risk", by decide, by decide⟩

/-- Keys of nodes added by the analyst loop all come from the catalog. -/
theorem addAnalysts_nodes (secured_agents : String → AgentFn) (sel : List String) :
    ∀ (ks : List String) (g g1 : StateGraph),
      addAnalysts sel (get_analyst_nodes secured_agents) ks g = Except.ok g1 →
      ∀ k ∈ g1.nodes.map Prod.fst, k ∈ g.nodes.map Prod.fst ∨ k ∈ analystNodeKeys := by
  intro ks
  induction ks with
  | nil =>
    intro g g1 h k hk
    simp only [addAnalysts, Except.ok.injEq] at h
    subst h
    exact Or.inl hk
  | cons a rest ih =>
    intro g g1 h k hk
    cases hf : (get_analyst_nodes secured_agents).find? (fun p => p.1 == a) with
    | none =>
      simp only [addAnalysts, hf] at h
      exact ih g g1 h k hk
    | some p =>
      have haK : a ∈ analystNodeKeys := by
        have hpa := List.find?_some hf
        have hpm := List.mem_of_find?_eq_some hf
        have hmap : p.1 ∈ (get_analyst_nodes secured_agents).map Prod.fst :=
          List.mem_map_of_mem Prod.fst hpm
        have hmf : (get_analyst_nodes secured_agents).map Prod.fst = analystNodeKeys := rfl
        rw [hmf] at hmap
        have : p.1 = a := by simpa using hpa
        rwa [this] at hmap
      cases hadd : addNode g a p.2 with
      | error e =>
        simp only [addAnalysts, hf, hadd] at h
        exact absurd h (by simp)
      | ok g2 =>
        simp only [addAnalysts, hf, hadd] at h
        obtain ⟨hg2, _⟩ := addNode_ok hadd
        subst hg2
        by_cases hc : (sel.head? == some a) = true
        · rw [if_pos hc] at h
          rcases ih _ g1 h k hk with h2 | h2
          · simp only [addEdge, List.map_append, List.mem_append] at h2
            rcases h2 with h2 | h2
            · exact Or.inl h2
            · simp at h2
              exact Or.inr (h2 ▸ haK)
          · exact Or.inr h2
        · rw [if_neg hc] at h
          rcases ih _ g1 h k hk with h2 | h2
          · simp only [List.map_append, List.mem_append] at h2
            rcases h2 with h2 | h2
            · exact Or.inl h2
            · simp at h2
              exact Or.inr (h2 ▸ haK)
          · exact Or.inr h2

/-- C9: whatever keys are selected, the built workflow never contains a node
for the portfolio or risk agents (they are absent from the analyst catalog),
yet secure_wrap_agents registers and verifies both — the all-or-nothing
verification gate covers two agents that can never execute in the
pipeline. -/
theorem c9_secured_beyond_pipeline (selected_analysts : List String)
    (secured_agents : String → AgentFn) (g : StateGraph)
    (hg : create_workflow selected_analysts secured_agents = Except.ok g) :
    ("portfolio" ∉ g.nodes.map Prod.fst ∧ "risk" ∉ g.nodes.map Prod.fst) ∧
    ("portfolio" ∈ agentNames ∧ "risk" ∈ agentNames) := by
  refine ⟨?_, by decide⟩
  simp only [create_workflow] at hg
  cases haa : addAnalysts selected_analysts (get_analyst_nodes secured_agents)
      selected_analysts { nodes := [("START", start_node)], edges := [], entry := none } with
  | error e =>
    rw [haa] at hg
    exact absurd hg (by simp)
  | ok g1 =>
    rw [haa] at hg
    have hsub := addAnalysts_nodes secured_agents selected_analysts selected_analysts _ g1 haa
    have hgn : g.nodes = g1.nodes := by
      cases hl : selected_analysts.getLast? with
      | none =>
        simp only [hl] at hg
        have hX := Except.ok.inj hg
        rw [← hX]
      | some last =>
        simp only [hl] at hg
        have hX := Except.ok.inj hg
        rw [← hX]
    constructor
    · intro hmem
      rw [hgn] at hmem
      rcases hsub "portfolio" hmem with h2 | h2
      · exact absurd h2 (by decide)
      · exact absurd h2 (by decide)
    · intro hmem
      rw [hgn] at hmem
      rcases hsub "risk" hmem with h2 | h2
      · exact absurd h2 (by decide)
      · exact absurd h2 (by decide)

/-- C9, witness at the empty selection. -/
theorem c9_secured_beyond_pipeline_witness :
    (("portfolio" ∉ (([("START", start_node)] : List (String × AgentFn)).map Prod.fst) ∧
      "risk" ∉ (([("START", start_node)] : List (String × AgentFn)).map Prod.fst)) ∧
     ("portfolio" ∈ agentNames ∧ "risk" ∈ agentNames)) :=
  c9_secured_beyond_pipeline [] idAgents
    { nodes := [("START", start_node)], edges := [], entry := some "START" } rfl

/-- A selection that repeats a catalog key (or repeats one already present as
a node) makes the analyst loop raise add_node's duplicate error. -/
theorem addAnalysts_duplicate (secured_agents : String → AgentFn) (sel : List String)
    (k : String) (hk : k ∈ analystNodeKeys) :
    ∀ (ks : List String) (g : StateGraph),
      (2 ≤ ks.count k ∨ (1 ≤ ks.count k ∧ k ∈ g.nodes.map Prod.fst)) →
      ∃ e, addAnalysts sel (get_analyst_nodes secured_agents) ks g = Except.error e := by
  intro ks
  induction ks with
  | nil =>
    intro g h
    simp [List.count_nil] at h
  | cons a rest ih =>
    intro g h
    by_cases hak : a = k
    · subst hak
      have hfind := find_analyst_nodes secured_agents a hk
      by_cases hmem : a ∈ g.nodes.map Prod.fst
      · refine ⟨"Node " ++ a ++ " already present.", ?_⟩
        have hcond : g.nodes.any (fun p => p.1 == a) = true := (any_key_iff _ _).mpr hmem
        simp [addAnalysts, hfind, addNode, hcond]
      · have hcnt : 1 ≤ rest.count a := by
          rcases h with h | h
          · rw [List.count_cons, if_pos (by simp : (a == a) = true)] at h
            omega
          · exact absurd h.2 hmem
        have hcond : ¬ (g.nodes.any (fun p => p.1 == a) = true) :=
          fun hc => hmem ((any_key_iff _ _).mp hc)
        have hstep : addAnalysts sel (get_analyst_nodes secured_agents) (a :: rest) g
            = addAnalysts sel (get_analyst_nodes secured_agents) rest
                (if (sel.head? == some a) = true
                 then addEdge
                    { g with nodes := g.nodes ++ [(a, secured_agents (pyKeyOf a))] }
                    "START" a
                 else { g with nodes := g.nodes ++ [(a, secured_agents (pyKeyOf a))] }) := by
          simp only [addAnalysts, hfind, addNode, if_neg hcond]
        rw [hstep]
        apply ih
        right
        refine ⟨hcnt, ?_⟩
        by_cases hc : (sel.head? == some a) = true
        · rw [if_pos hc]
          simp [addEdge]
        · rw [if_neg hc]
          simp
    · have hcnt : (a :: rest).count k = rest.count k := by
        rw [List.count_cons]
        simp [hak]
      rw [hcnt] at h
      cases hf : (get_analyst_nodes secured_agents).find? (fun p => p.1 == a) with
      | none =>
        have hstep : addAnalysts sel (get_analyst_nodes secured_agents) (a :: rest) g
            = addAnalysts sel (get_analyst_nodes secured_agents) rest g := by
          simp only [addAnalysts, hf]
        rw [hstep]
        exact ih g h
      | some p =>
        cases hadd : addNode g a p.2 with
        | error e =>
          refine ⟨e, ?_⟩
          simp [addAnalysts, hf, hadd]
        | ok g2 =>
          obtain ⟨hg2, _⟩ := addNode_ok hadd
          have hstep : addAnalysts sel (get_analyst_nodes secured_agents) (a :: rest) g
              = addAnalysts sel (get_analyst_nodes secured_agents) rest
                  (if (sel.head? == some a) = true then addEdge g2 "START" a else g2) := by
            simp only [addAnalysts, hf, hadd]
          rw [hstep]
          apply ih
          rcases h with h | h
          · exact Or.inl h
          · right
            refine ⟨h.1, ?_⟩
            subst hg2
            by_cases hc : (sel.head? == some a) = true
            · rw [if_pos hc]
              simp only [addEdge, List.map_append, List.mem_append]
              exact Or.inl h.2
            · rw [if_neg hc]
              simp only [List.map_append, List.mem_append]
              exact Or.inl h.2

/-- C4, amended: a requested key list that repeats a catalog key is rejected
by the builder (add_node's duplicate error) and no agent executes — but the
rejection happens AFTER the securing phase has completed, not before it. -/
theorem c4_duplicate_rejection (selected_analysts : List String) (k : String)
    (hk : k ∈ analystNodeKeys) (hdup : 2 ≤ selected_analysts.count k)
    (secured_agents : String → AgentFn) (verify : String → Bool) (apiKey : String)
    (hvalid : agentNames.all verify = true) :
    (∃ e, create_workflow selected_analysts secured_agents = Except.error e) ∧
    (run_hedge_fund (some apiKey) verify secured_agents selected_analysts).events
        = secureEvents ++ [REvent.buildReject] ∧
    (∀ j, REvent.nodeCall j ∉
        (run_hedge_fund (some apiKey) verify secured_agents selected_analysts).events) ∧
    (run_hedge_fund (some apiKey) verify secured_agents selected_analysts).pipelineBuilt
        = false := by
  obtain ⟨e, he⟩ : ∃ e, create_workflow selected_analysts secured_agents
      = Except.error e := by
    obtain ⟨e, he⟩ := addAnalysts_duplicate secured_agents selected_analysts k hk
        selected_analysts { nodes := [("START", start_node)], edges := [], entry := none }
        (Or.inl hdup)
    exact ⟨e, by simp only [create_workflow, he]⟩
  have hne : selected_analysts.isEmpty = false := by
    have hmem : k ∈ selected_analysts := by
      have hpos : 0 < selected_analysts.count k := by omega
      exact List.count_pos_iff.mp hpos
    cases selected_analysts with
    | nil => cases hmem
    | cons a r => rfl
  have hsw : secure_wrap_agents verify = Except.ok agentNames := by
    simp [secure_wrap_agents, hvalid]
  have hrun : run_hedge_fund (some apiKey) verify secured_agents selected_analysts
      = { result := Except.ok none, pipelineBuilt := false,
          events := secureEvents ++ [REvent.buildReject] } := by
    simp [run_hedge_fund, hsw, hne, he]
  refine ⟨⟨e, he⟩, ?_, ?_, ?_⟩
  · rw [hrun]
  · intro j
    rw [hrun]
    simp [secureEvents, List.mem_append, List.mem_map]
  · rw [hrun]

/-- C4, witness: the duplicated request [ben_graham, ben_graham] with all
verifications passing — build rejected, agents secured first, none run. -/
theorem c4_duplicate_rejection_witness :
    (∃ e, create_workflow ["ben_graham", "ben_graham"] idAgents = Except.error e) ∧
    (run_hedge_fund (some "key") (fun _ => true) idAgents
        ["ben_graham", "ben_graham"]).events = secureEvents ++ [REvent.buildReject] ∧
    (∀ j, REvent.nodeCall j ∉
        (run_hedge_fund (some "key") (fun _ => true) idAgents
          ["ben_graham", "ben_graham"]).events) ∧
    (run_hedge_fund (some "key") (fun _ => true) idAgents
        ["ben_graham", "ben_graham"]).pipelineBuilt = false :=
  c4_duplicate_rejection ["ben_graham", "ben_graham"] "ben_graham" (by decide) (by decide)
    idAgents (fun _ => true) "key" (by decide)

/-- C5, amended: a requested key absent from the analyst catalog is silently
skipped — create_workflow succeeds with no error, adds no node for it, and
still records the dangling edge from it to END. -/
theorem c5_unknown_key_skipped (k : String) (hk : k ∉ analystNodeKeys)
    (secured_agents : String → AgentFn) :
    create_workflow [k] secured_agents
      = Except.ok { nodes := [("START", start_node)], edges := [(k, ENDk)],
                    entry := some "START" } := by
  have hfind : (get_analyst_nodes secured_agents).find? (fun p => p.1 == k) = none := by
    rw [List.find?_eq_none]
    intro p hp
    have hmap : p.1 ∈ (get_analyst_nodes secured_agents).map Prod.fst :=
      List.mem_map_of_mem Prod.fst hp
    have hmf : (get_analyst_nodes secured_agents).map Prod.fst = analystNodeKeys := rfl
    rw [hmf] at hmap
    simp only [beq_iff_eq]
    exact fun he => hk (he ▸ hmap)
  simp [create_workflow, addAnalysts, hfind, lastEdge]

/-- C5, witness: the unknown key "moon_phase" is skipped, not rejected. -/
theorem c5_unknown_key_skipped_witness :
    create_workflow ["moon_phase"] idAgents
      = Except.ok { nodes := [("START", start_node)], edges := [("moon_phase", ENDk)],
                    entry := some "START" } :=
  c5_unknown_key_skipped "moon_phase" (by decide) idAgents
